import Mathlib

/-!
# Verification of the batch API requestor (`src/app.py`)

A shallow embedding of the core of `src/app.py`:

* `parse_extraction_data` — the tolerant JSON field extractor (lines 34-87);
* `fetch_data` — the per-row HTTP fetch unit (lines 89-119);
* the retry configuration `get_session_with_retries` (lines 16-32) together
  with the status-retry loop it configures in the underlying HTTP stack;
* the batch collection loop and record merge (lines 240-264);
* the id-column normalisation (lines 161-163) and the viewer/runner mode
  dispatch (lines 174-216).

The Python standard-library pieces the code leans on (`json.loads`,
`json.dumps`, `str.strip`, `str.lower`, `dict.get`, dict merge by `**`
spreading) are embedded as executable Lean functions on the fragment the
program exercises: JSON values are `null`, booleans, integer numerals,
strings whose characters need at most the `\"` and `\\` escapes, arrays and
objects; whitespace is the four ASCII blanks shared by the JSON grammar and
`str.strip`.  The extra shapes Python would accept (fractional numbers, the
non-standard `NaN`/`Infinity` literals, exotic escapes) are never produced
by the program's serialiser and always land in the same all-absent /
failure branches, so the truth of each claim is unaffected.
-/

namespace BatchApp

/-! ## Character helpers (Python `str` operations, ASCII fragment) -/

/-- The whitespace characters recognised both by the JSON grammar and by
`str.strip` (ASCII fragment). -/
def isWsChar (c : Char) : Bool :=
  c = ' ' || c = '\t' || c = '\n' || c = '\r'

/-- Python `str.lower` on a single character (ASCII fragment): code points
65-90 shift up by 32. -/
def pyToLower (c : Char) : Char :=
  if 65 ≤ c.toNat ∧ c.toNat ≤ 90 then Char.ofNat (c.toNat + 32) else c

/-- Python `str.lower`. -/
def pyLower (cs : List Char) : List Char := cs.map pyToLower

/-- Drop leading whitespace (also the whitespace skipping of the JSON lexer). -/
def skipWs (cs : List Char) : List Char := cs.dropWhile isWsChar

/-- Drop trailing whitespace. -/
def dropTrailingWs (cs : List Char) : List Char :=
  (cs.reverse.dropWhile isWsChar).reverse

/-- Python `str.strip`. -/
def pyStrip (cs : List Char) : List Char := dropTrailingWs (skipWs cs)

/-! ## Decimal numerals (Python `str(int)` / JSON integer literals) -/

def isDigitChar (c : Char) : Bool := 48 ≤ c.toNat && c.toNat ≤ 57

def digitVal (c : Char) : Nat := c.toNat - 48

def digitChar (n : Nat) : Char := Char.ofNat (48 + n)

/-- Decimal rendering worker; the step budget strictly dominates the digit
count, so `natCharsAux (n + 1) n` is always the full numeral. -/
def natCharsAux : Nat → Nat → List Char
  | 0, _ => []
  | fuel + 1, n =>
    if n < 10 then [digitChar n]
    else natCharsAux fuel (n / 10) ++ [digitChar (n % 10)]

/-- Decimal rendering of a natural number, most significant digit first. -/
def natChars (n : Nat) : List Char := natCharsAux (n + 1) n

/-- Decimal rendering of an integer: Python `str(int)`, also the JSON
serialisation of an integral number. -/
def intChars (n : Int) : List Char :=
  if n < 0 then '-' :: natChars n.natAbs else natChars n.toNat

/-! ## JSON values -/

/-- JSON values, as produced by `json.loads` on the fragment the program
exercises (numbers restricted to integers). -/
inductive JVal where
  | null : JVal
  | bool (b : Bool) : JVal
  | num (n : Int) : JVal
  | str (s : String) : JVal
  | arr (xs : List JVal) : JVal
  | obj (kvs : List (String × JVal)) : JVal
deriving Repr

mutual

/-- Decidable equality on JSON values (hand-rolled: the nested inductive
defeats the automatic derivation). -/
def JVal.deq : (a b : JVal) → Decidable (a = b)
  | .null, .null => isTrue rfl
  | .bool a, .bool b =>
    match decEq a b with
    | isTrue h => isTrue (h ▸ rfl)
    | isFalse h => isFalse (by simp [h])
  | .num a, .num b =>
    match decEq a b with
    | isTrue h => isTrue (h ▸ rfl)
    | isFalse h => isFalse (by simp [h])
  | .str a, .str b =>
    match decEq a b with
    | isTrue h => isTrue (h ▸ rfl)
    | isFalse h => isFalse (by simp [h])
  | .arr a, .arr b =>
    match JVal.deqList a b with
    | isTrue h => isTrue (h ▸ rfl)
    | isFalse h => isFalse (by simp [h])
  | .obj a, .obj b =>
    match JVal.deqPairs a b with
    | isTrue h => isTrue (h ▸ rfl)
    | isFalse h => isFalse (by simp [h])
  | .null, .bool _ => isFalse (by simp)
  | .null, .num _ => isFalse (by simp)
  | .null, .str _ => isFalse (by simp)
  | .null, .arr _ => isFalse (by simp)
  | .null, .obj _ => isFalse (by simp)
  | .bool _, .null => isFalse (by simp)
  | .bool _, .num _ => isFalse (by simp)
  | .bool _, .str _ => isFalse (by simp)
  | .bool _, .arr _ => isFalse (by simp)
  | .bool _, .obj _ => isFalse (by simp)
  | .num _, .null => isFalse (by simp)
  | .num _, .bool _ => isFalse (by simp)
  | .num _, .str _ => isFalse (by simp)
  | .num _, .arr _ => isFalse (by simp)
  | .num _, .obj _ => isFalse (by simp)
  | .str _, .null => isFalse (by simp)
  | .str _, .bool _ => isFalse (by simp)
  | .str _, .num _ => isFalse (by simp)
  | .str _, .arr _ => isFalse (by simp)
  | .str _, .obj _ => isFalse (by simp)
  | .arr _, .null => isFalse (by simp)
  | .arr _, .bool _ => isFalse (by simp)
  | .arr _, .num _ => isFalse (by simp)
  | .arr _, .str _ => isFalse (by simp)
  | .arr _, .obj _ => isFalse (by simp)
  | .obj _, .null => isFalse (by simp)
  | .obj _, .bool _ => isFalse (by simp)
  | .obj _, .num _ => isFalse (by simp)
  | .obj _, .str _ => isFalse (by simp)
  | .obj _, .arr _ => isFalse (by simp)

/-- Decidable equality on lists of JSON values. -/
def JVal.deqList : (a b : List JVal) → Decidable (a = b)
  | [], [] => isTrue rfl
  | [], _ :: _ => isFalse (by simp)
  | _ :: _, [] => isFalse (by simp)
  | a :: as, b :: bs =>
    match JVal.deq a b, JVal.deqList as bs with
    | isTrue h1, isTrue h2 => isTrue (by rw [h1, h2])
    | isFalse h1, _ => isFalse (by simp [h1])
    | _, isFalse h2 => isFalse (by simp [h2])

/-- Decidable equality on lists of key/value members. -/
def JVal.deqPairs : (a b : List (String × JVal)) → Decidable (a = b)
  | [], [] => isTrue rfl
  | [], _ :: _ => isFalse (by simp)
  | _ :: _, [] => isFalse (by simp)
  | (k, v) :: as, (k2, v2) :: bs =>
    match decEq k k2, JVal.deq v v2, JVal.deqPairs as bs with
    | isTrue h1, isTrue h2, isTrue h3 => isTrue (by rw [h1, h2, h3])
    | isFalse h1, _, _ => isFalse (by simp [h1])
    | _, isFalse h2, _ => isFalse (by simp [h2])
    | _, _, isFalse h3 => isFalse (by simp [h3])

end

instance : DecidableEq JVal := JVal.deq

/-- String-content escaping used by `json.dumps`: quote and backslash get a
backslash prefix. -/
def escChars : List Char → List Char
  | [] => []
  | c :: cs =>
    if c = '"' then '\\' :: '"' :: escChars cs
    else if c = '\\' then '\\' :: '\\' :: escChars cs
    else c :: escChars cs

mutual

/-- Model of `json.dumps` with the default separators `", "` and `": "`. -/
def dumpsL : JVal → List Char
  | .null => "null".data
  | .bool true => "true".data
  | .bool false => "false".data
  | .num n => intChars n
  | .str s => '"' :: (escChars s.data ++ ['"'])
  | .arr xs => '[' :: (dumpsArr xs ++ [']'])
  | .obj kvs => '\x7b' :: (dumpsObj kvs ++ ['\x7d'])

/-- Serialisation of the elements of a JSON array, comma-space separated. -/
def dumpsArr : List JVal → List Char
  | [] => []
  | [x] => dumpsL x
  | x :: y :: xs => dumpsL x ++ ',' :: ' ' :: dumpsArr (y :: xs)

/-- Serialisation of the members of a JSON object, comma-space separated,
with `": "` between key and value. -/
def dumpsObj : List (String × JVal) → List Char
  | [] => []
  | [(k, v)] => '"' :: (escChars k.data ++ '"' :: ':' :: ' ' :: dumpsL v)
  | (k, v) :: p :: ps =>
      ('"' :: (escChars k.data ++ '"' :: ':' :: ' ' :: dumpsL v))
        ++ ',' :: ' ' :: dumpsObj (p :: ps)

end

/-- Model of `json.dumps` at the `String` level. -/
def json_dumps (v : JVal) : String := String.mk (dumpsL v)

/-! ## JSON decoding (`json.loads`)

A recursive-descent reader over `List Char` with a step budget (`fuel`);
`loadsL` supplies a budget that is ample for every input (each unit of
budget spent consumes at least one input character across a
value/item/pair step). -/

/-- Expect a fixed character sequence, returning the remainder. -/
def expectChars : List Char → List Char → Option (List Char)
  | [], cs => some cs
  | e :: es, c :: cs => if c = e then expectChars es cs else none
  | _ :: _, [] => none

/-- Read the body of a JSON string after the opening quote, undoing the
`\"` and `\\` escapes; returns content and remainder past the closing
quote. -/
def pStr : List Char → Option (List Char × List Char)
  | [] => none
  | c :: cs =>
    if c = '"' then some ([], cs)
    else if c = '\\' then
      match cs with
      | [] => none
      | d :: cs' =>
        if d = '"' || d = '\\' then
          match pStr cs' with
          | some (s, r) => some (d :: s, r)
          | none => none
        else none
    else
      match pStr cs with
      | some (s, r) => some (c :: s, r)
      | none => none

/-- Accumulate further decimal digits. -/
def pDigits : Nat → List Char → Nat × List Char
  | acc, [] => (acc, [])
  | acc, c :: cs =>
    if isDigitChar c then pDigits (acc * 10 + digitVal c) cs else (acc, c :: cs)

/-- Read an unsigned JSON integer numeral (no leading zeros: a leading `0`
is the whole numeral). -/
def pNat : List Char → Option (Nat × List Char)
  | [] => none
  | c :: cs =>
    if c = '0' then some (0, cs)
    else if isDigitChar c then some (pDigits (digitVal c) cs)
    else none

mutual

/-- Read one JSON value (leading whitespace allowed). -/
def pValue : Nat → List Char → Option (JVal × List Char)
  | 0, _ => none
  | fuel + 1, cs =>
    match skipWs cs with
    | [] => none
    | c :: rest =>
      if c = 'n' then
        match expectChars ['u', 'l', 'l'] rest with
        | some r => some (.null, r)
        | none => none
      else if c = 't' then
        match expectChars ['r', 'u', 'e'] rest with
        | some r => some (.bool true, r)
        | none => none
      else if c = 'f' then
        match expectChars ['a', 'l', 's', 'e'] rest with
        | some r => some (.bool false, r)
        | none => none
      else if c = '"' then
        match pStr rest with
        | some (s, r) => some (.str (String.mk s), r)
        | none => none
      else if c = '-' then
        match pNat rest with
        | some (n, r) => some (.num (-(n : Int)), r)
        | none => none
      else if isDigitChar c then
        match pNat (c :: rest) with
        | some (n, r) => some (.num (n : Int), r)
        | none => none
      else if c = '[' then
        match skipWs rest with
        | [] => none
        | d :: r2 =>
          if d = ']' then some (.arr [], r2)
          else
            match pItems fuel rest with
            | some (vs, r) => some (.arr vs, r)
            | none => none
      else if c = '\x7b' then
        match skipWs rest with
        | [] => none
        | d :: r2 =>
          if d = '\x7d' then some (.obj [], r2)
          else
            match pPairs fuel rest with
            | some (ps, r) => some (.obj ps, r)
            | none => none
      else none

/-- Read the comma-separated elements of a non-empty array together with
the closing bracket. -/
def pItems : Nat → List Char → Option (List JVal × List Char)
  | 0, _ => none
  | fuel + 1, cs =>
    match pValue fuel cs with
    | none => none
    | some (v, r) =>
      match skipWs r with
      | [] => none
      | d :: r2 =>
        if d = ',' then
          match pItems fuel r2 with
          | some (vs, r3) => some (v :: vs, r3)
          | none => none
        else if d = ']' then some ([v], r2)
        else none

/-- Read the comma-separated members of a non-empty object together with
the closing brace. -/
def pPairs : Nat → List Char → Option (List (String × JVal) × List Char)
  | 0, _ => none
  | fuel + 1, cs =>
    match skipWs cs with
    | [] => none
    | c :: rest =>
      if c = '"' then
        match pStr rest with
        | none => none
        | some (k, r) =>
          match skipWs r with
          | [] => none
          | d :: r2 =>
            if d = ':' then
              match pValue fuel r2 with
              | none => none
              | some (v, r3) =>
                match skipWs r3 with
                | [] => none
                | e :: r4 =>
                  if e = ',' then
                    match pPairs fuel r4 with
                    | some (ps, r5) => some ((String.mk k, v) :: ps, r5)
                    | none => none
                  else if e = '\x7d' then some ([(String.mk k, v)], r4)
                  else none
            else none
      else none

end

/-- Model of `json.loads` on character lists: one value, then only trailing
whitespace. -/
def loadsL (cs : List Char) : Option JVal :=
  match pValue (cs.length + 1) cs with
  | some (v, r) => if (skipWs r).isEmpty then some v else none
  | none => none

/-- Model of `json.loads` (a raised decode error is `none`). -/
def json_loads (s : String) : Option JVal := loadsL s.data

/-! ## The JSON field extractor (`parse_extraction_data`, src/app.py:34-87) -/

/-- The Python values `parse_extraction_data` can receive: a string, a
dict, or any of the non-string non-dict scalars handled by the final
`else` branch (`None`, a float `NaN` from pandas, numbers, lists,
booleans). -/
inductive PyIn where
  | pstr (s : String) : PyIn
  | pdict (d : List (String × JVal)) : PyIn
  | pnone : PyIn
  | pnan : PyIn
  | pint (n : Int) : PyIn
  | pfloat (m : Int) : PyIn
  | pbool (b : Bool) : PyIn
  | plist (xs : List JVal) : PyIn
deriving DecidableEq, Repr

/-- The result dict of `parse_extraction_data`: the four optional fields,
`none` standing for Python `None`. -/
structure Parsed where
  mobile_number : Option JVal
  main_disposition : Option JVal
  sub_disposition : Option JVal
  updated_at : Option JVal
deriving DecidableEq, Repr

/-- The `parsed` dict as it is first built (src/app.py:41-46): every field
`None`. -/
def emptyParsed : Parsed :=
  { mobile_number := none, main_disposition := none
    sub_disposition := none, updated_at := none }

/-- Python dict lookup for a dict built by inserting the listed key/value
pairs in order (a later duplicate key overwrites the value). -/
def pyDictGet (d : List (String × JVal)) (k : String) : Option JVal :=
  d.foldl (fun acc kv => if kv.1 = k then some kv.2 else acc) none

/-- Model of `dict.get(k)` as seen from the `parsed` result: a stored JSON `null`
is Python `None`, indistinguishable from an absent key. -/
def getAsPy (d : List (String × JVal)) (k : String) : Option JVal :=
  match pyDictGet d k with
  | some .null => none
  | o => o

/-- The field reads of `parse_extraction_data` once a dict has been
resolved (src/app.py:73-87).  The `extraction` / `extracted_data` blocks
are entered only when `block and isinstance(block, dict)` holds, i.e. the
value is a non-empty dict (an absent key defaults to the falsy `\x7b\x7d`,
a JSON `null` is the falsy `None`). -/
def extractDict (data : List (String × JVal)) : Parsed :=
  let mobile := getAsPy data "mobile_number"
  let cls :=
    match pyDictGet data "extraction" with
    | some (.obj eb) =>
      if eb.isEmpty then (none, none)
      else
        match pyDictGet eb "extracted_data" with
        | some (.obj ed) =>
          if ed.isEmpty then (none, none)
          else (getAsPy ed "main_disposition", getAsPy ed "sub_disposition")
        | _ => (none, none)
    | _ => (none, none)
  { mobile_number := mobile, main_disposition := cls.1
    sub_disposition := cls.2, updated_at := getAsPy data "conversation_time" }

/-- The extractor `parse_extraction_data` (src/app.py:34-87). -/
def parse_extraction_data (json_input : PyIn) : Parsed :=
  match json_input with
  | .pstr s =>
    if (pyStrip s.data).isEmpty || pyLower s.data = "nan".data then emptyParsed
    else
      match loadsL s.data with
      | some (.obj kvs) => extractDict kvs
      | _ => emptyParsed
  | .pdict d => extractDict d
  | _ => emptyParsed

/-! ### The extractor algorithm as the spec words it (§4.3)

A second definition, built from the sentences of the spec rather than from
the source, used as the comparison point for the refinement claim: trim
the string first and compare the trimmed text to `"nan"`; read the
classification fields whenever both segments of `extraction.extracted_data`
are mappings (empty or not). -/

/-- Spec §4.3 steps 1-3: which inputs resolve to a mapping. -/
def specResolved : PyIn → Option (List (String × JVal))
  | .pdict d => some d
  | .pstr s =>
    if (pyStrip s.data).isEmpty || pyLower (pyStrip s.data) = "nan".data then none
    else
      match loadsL s.data with
      | some (.obj d) => some d
      | _ => none
  | _ => none

/-- Spec §4.3 steps 4-7: the field reads from a resolved mapping. -/
def extractSpecDict (d : List (String × JVal)) : Parsed :=
  let cls :=
    match pyDictGet d "extraction" with
    | some (.obj eb) =>
      match pyDictGet eb "extracted_data" with
      | some (.obj ed) => (getAsPy ed "main_disposition", getAsPy ed "sub_disposition")
      | _ => (none, none)
    | _ => (none, none)
  { mobile_number := getAsPy d "mobile_number", main_disposition := cls.1
    sub_disposition := cls.2, updated_at := getAsPy d "conversation_time" }

/-- The extractor as specified in §4.3. -/
def extractSpec (j : PyIn) : Parsed :=
  match specResolved j with
  | some d => extractSpecDict d
  | none => emptyParsed

/-! ## The HTTP fetch unit (`fetch_data`, src/app.py:89-119) -/

/-- What the network does for one GET: either an HTTP response arrives
(status line carries a natural-number code) or the request raises a
`requests.exceptions.RequestException` with message `msg`. -/
inductive HttpResult where
  | resp (status : Nat) (body : String) : HttpResult
  | exn (msg : String) : HttpResult
deriving DecidableEq, Repr

/-- The `result` dict of `fetch_data` (src/app.py:95-101). -/
structure FetchResult where
  id : String
  full_url : String
  status_code : Int
  response_json : String
  error : String
deriving DecidableEq, Repr

/-- The fetch unit `fetch_data` (src/app.py:89-119), with the network abstracted as a
function from the dispatched URL to its outcome.  On a response, the body
is stored re-serialised when it decodes as JSON and verbatim otherwise; on
a transport failure the pre-set defaults survive except for the `-1`
sentinel and the error text. -/
def fetch_data (net : String → HttpResult) (base_url_pre : String)
    (row_id : String) (base_url_post : String) : FetchResult :=
  let full_url := base_url_pre ++ row_id ++ base_url_post
  match net full_url with
  | .resp st body =>
    { id := row_id, full_url := full_url, status_code := (st : Int)
      response_json :=
        match json_loads body with
        | some data => json_dumps data
        | none => body
      error := "" }
  | .exn e =>
    { id := row_id, full_url := full_url, status_code := -1
      response_json := "", error := e }

/-! ## The retry policy (`get_session_with_retries`, src/app.py:16-32)

The repository configures a `urllib3` `Retry` object; the retry loop
itself lives in that library.  `retryLoop` embeds the documented status
retry behaviour it configures: a response whose status is in
`status_forcelist` consumes one unit of the `total` budget and triggers a
fresh attempt; exhausting the budget on such a status raises
`MaxRetryError` (surfacing as a `RequestException`); any other status is
returned at once. -/

/-- The `Retry` configuration built by `get_session_with_retries`
(src/app.py:22-28). -/
structure RetryPolicy where
  total : Nat
  status_forcelist : List Nat
deriving DecidableEq, Repr

/-- The session builder `get_session_with_retries` (src/app.py:16-32), reduced to the retry
configuration it installs on the session. -/
def get_session_with_retries (retries : Nat) : RetryPolicy :=
  { total := retries, status_forcelist := [500, 502, 504] }

/-- Outcome of the attempt loop: a response handed back to `fetch_data`
together with the number of attempts issued, or a raised
`MaxRetryError`. -/
inductive RetryOutcome where
  | response (status : Nat) (attempts : Nat) : RetryOutcome
  | maxRetryError (attempts : Nat) : RetryOutcome
deriving DecidableEq, Repr

/-- The status-retry loop of the configured adapter: `resp i` is the
status the server answers on attempt `i` (0-based), `budget` the remaining
`total`. -/
def retryLoop (fl : List Nat) (resp : Nat → Nat) (i : Nat) (budget : Nat) :
    RetryOutcome :=
  let st := resp i
  if st ∈ fl then
    match budget with
    | 0 => .maxRetryError (i + 1)
    | b + 1 => retryLoop fl resp (i + 1) b
  else .response st (i + 1)

/-! ## Cells, rows and the record merge (src/app.py:240-264) -/

/-- Scalar values sitting in dataframe cells and merged records: strings,
ints, float64 whole numbers `m.0`, pandas `NaN`, Python `None`, and JSON
values coming from the extractor. -/
inductive Cell where
  | s (v : String) : Cell
  | i (n : Int) : Cell
  | f (m : Int) : Cell
  | nan : Cell
  | pynone : Cell
  | j (v : JVal) : Cell
deriving DecidableEq, Repr

/-- A row as an ordered mapping from column name to cell (Python dict /
pandas row). -/
abbrev Row := List (String × Cell)

/-- Lookup in an ordered mapping (first hit; the rows the program builds
carry each key once). -/
def alookup (r : Row) (k : String) : Option Cell :=
  match r with
  | [] => none
  | kv :: rest => if kv.1 = k then some kv.2 else alookup rest k

/-- Python dict merge `\x7b**a, **b\x7d`: keys of `a` keep their position
but take `b`'s value when `b` also binds them; keys only in `b` are
appended in `b`'s order. -/
def dictMerge (a b : Row) : Row :=
  a.map (fun kv => (kv.1, (alookup b kv.1).getD kv.2))
    ++ b.filter (fun kv => (alookup a kv.1).isNone)

/-- The `result` dict of `fetch_data` as a row, in source insertion order
(src/app.py:95-101). -/
def fetchDict (r : FetchResult) : Row :=
  [("id", .s r.id), ("full_url", .s r.full_url), ("status_code", .i r.status_code),
    ("response_json", .s r.response_json), ("error", .s r.error)]

/-- The `parsed` dict as a row, in source insertion order
(src/app.py:41-46), `None` for an absent field. -/
def parsedDict (p : Parsed) : Row :=
  [("mobile_number", (p.mobile_number.map Cell.j).getD .pynone),
    ("main_disposition", (p.main_disposition.map Cell.j).getD .pynone),
    ("sub_disposition", (p.sub_disposition.map Cell.j).getD .pynone),
    ("updated_at", (p.updated_at.map Cell.j).getD .pynone)]

/-- The value `row['id']` as passed to `fetch_data` (src/app.py:243).  In runner
mode the id column exists and was already normalised to strings by
`astype(str)`; the other arms are unreachable there. -/
def rowIdStr (row : Row) : String :=
  match alookup row "id" with
  | some (.s v) => v
  | _ => ""

/-- One iteration of the collection loop (src/app.py:249-259): take the
completed future's result, run the extractor over its raw body, and merge
original row, request outcome and extracted fields (later dicts win). -/
def processRow (net : String → HttpResult) (pre post : String) (row : Row) : Row :=
  let result_data := fetch_data net pre (rowIdStr row) post
  let parsed_fields := parse_extraction_data (.pstr result_data.response_json)
  dictMerge (dictMerge row (fetchDict result_data)) (parsedDict parsed_fields)

/-- The whole `as_completed` collection loop (src/app.py:240-264):
`order` is the completion order of the submitted futures, a permutation of
the input rows; every completion appends exactly one merged record. -/
def runBatch (net : String → HttpResult) (pre post : String)
    (order : List Row) : List Row :=
  order.map (processRow net pre post)

/-! ## Loading, id normalisation and mode dispatch (src/app.py:153-216) -/

/-- Python `str()` on a cell (`astype(str)` applies it element-wise):
`str` of a whole float64 `m.0` renders with a trailing `.0`. -/
def pyStrOfCell : Cell → String
  | .s v => v
  | .i n => String.mk (intChars n)
  | .f m => String.mk (intChars m ++ ['.', '0'])
  | .nan => "nan"
  | .pynone => "None"
  | .j _ => ""

/-- An uploaded dataframe: its column names and its rows. -/
structure Table where
  cols : List String
  rows : List Row
deriving DecidableEq, Repr

/-- The id normalisation `df['id'] = df['id'].astype(str)` (src/app.py:161-163). -/
def astypeStrId (df : Table) : Table :=
  { df with
    rows := df.rows.map (fun r =>
      r.map (fun kv => if kv.1 = "id" then (kv.1, .s (pyStrOfCell kv.2)) else kv)) }

/-- A JSON value as the Python object handed to `parse_extraction_data`. -/
def jvalToPyIn : JVal → PyIn
  | .obj d => .pdict d
  | .str s => .pstr s
  | .num n => .pint n
  | .null => .pnone
  | .bool b => .pbool b
  | .arr xs => .plist xs

/-- A `response_json` cell as the Python object handed to
`parse_extraction_data` in viewer mode; a missing value is a pandas
`NaN`. -/
def cellToPyIn : Option Cell → PyIn
  | some (.s v) => .pstr v
  | some (.i n) => .pint n
  | some (.f m) => .pfloat m
  | some .nan => .pnan
  | some .pynone => .pnone
  | some (.j v) => jvalToPyIn v
  | none => .pnan

/-- What the app does with an upload, at the granularity the claims need. -/
inductive AppOutcome where
  | viewerOut (parsed : List Parsed) : AppOutcome
  | runnerOut (results : List Row) : AppOutcome
  | missingIdError : AppOutcome
deriving DecidableEq, Repr

/-- The mode dispatch (src/app.py:174-216): a `response_json` column
selects viewer mode, which only parses that column; otherwise runner mode
requires an `id` column and, once started, runs the batch. -/
def appRun (net : String → HttpResult) (df : Table) (pre post : String)
    (order : List Row) : AppOutcome :=
  if "response_json" ∈ df.cols then
    .viewerOut (df.rows.map (fun r => parse_extraction_data (cellToPyIn (alookup r "response_json"))))
  else if "id" ∈ df.cols then
    .runnerOut (runBatch net pre post order)
  else .missingIdError

/-! ### Concrete fixtures used by the claim witnesses -/

/-- The payload of the spec's end-to-end example (§8). -/
def exampleBody : String :=
  "\x7b\"mobile_number\": \"555\", \"extraction\": \x7b\"extracted_data\": \x7b\"main_disposition\": \"A\", \"sub_disposition\": \"B\"\x7d\x7d, \"conversation_time\": \"2024-01-01\"\x7d"

/-- The network of the spec's end-to-end example: id 1 answers 200 with
the payload, everything else suffers a connection refusal. -/
def exampleNet : String → HttpResult := fun url =>
  if url = "https://api.test/item/1" then .resp 200 exampleBody
  else .exn "connection refused"

def exampleRows : List Row := [[("id", Cell.s "1")], [("id", Cell.s "2")]]

/-- A completion order: the second row finishes first. -/
def exampleOrder : List Row := [[("id", Cell.s "2")], [("id", Cell.s "1")]]

/-! ## Lemmas about ordered-mapping lookup and the dict merge -/

theorem alookup_append (a b : Row) (k : String) :
    alookup (a ++ b) k =
      match alookup a k with
      | some v => some v
      | none => alookup b k := by
  induction a with
  | nil => simp [alookup]
  | cons kv a' ih =>
    by_cases h : kv.1 = k <;> simp [alookup, h, ih]

theorem alookup_overrideMap (a b : Row) (k : String) :
    alookup (a.map fun kv => (kv.1, (alookup b kv.1).getD kv.2)) k
      = (alookup a k).map fun v => (alookup b k).getD v := by
  induction a with
  | nil => simp [alookup]
  | cons kv a' ih =>
    by_cases h : kv.1 = k <;> simp [alookup, h, ih]

theorem alookup_filterKeep (a b : Row) (k : String) (h : alookup a k = none) :
    alookup (b.filter fun kv => (alookup a kv.1).isNone) k = alookup b k := by
  induction b with
  | nil => simp
  | cons kv b' ih =>
    by_cases hk : kv.1 = k
    · simp [List.filter, alookup, hk, h]
    · cases hp : (alookup a kv.1).isNone
      · simpa [List.filter, hp, alookup, hk] using ih
      · simpa [List.filter, hp, alookup, hk] using ih

/-- The merge `\x7b**a, **b\x7d` looks up as: `b` wins, else `a`. -/
theorem alookup_dictMerge (a b : Row) (k : String) :
    alookup (dictMerge a b) k =
      match alookup b k with
      | some v => some v
      | none => alookup a k := by
  unfold dictMerge
  rw [alookup_append, alookup_overrideMap]
  cases ha : alookup a k with
  | some v => cases hb : alookup b k <;> simp [ha, hb]
  | none =>
    rw [alookup_filterKeep a b k ha]
    cases hb : alookup b k <;> simp [hb]

/-! ## Lemmas about the retry loop -/

/-- Running the configured loop against a server that answers a forcelist
status for the first `n` attempts and a terminal status on attempt `n`
issues exactly `n + 1` attempts and hands back the terminal response. -/
theorem retryLoop_terminal (fl : List Nat) (resp : Nat → Nat) :
    ∀ n i, (∀ j, j < n → resp (i + j) ∈ fl) → resp (i + n) ∉ fl →
      retryLoop fl resp i n = .response (resp (i + n)) (i + n + 1) := by
  intro n
  induction n with
  | zero =>
    intro i _ hterm
    rw [retryLoop]
    simp only [Nat.add_zero] at hterm
    simp [hterm]
  | succ b ih =>
    intro i hr hterm
    have h0 : resp i ∈ fl := by simpa using hr 0 (by omega)
    rw [retryLoop]
    simp only [h0, if_true]
    have hr' : ∀ j, j < b → resp (i + 1 + j) ∈ fl := by
      intro j hj
      have : i + 1 + j = i + (j + 1) := by omega
      rw [this]
      exact hr (j + 1) (by omega)
    have hterm' : resp (i + 1 + b) ∉ fl := by
      have : i + 1 + b = i + (b + 1) := by omega
      rw [this]; exact hterm
    have hrec := ih (i + 1) hr' hterm'
    rw [show i + 1 + b = i + (b + 1) from by omega] at hrec
    exact hrec

/-! ## Lemmas about decimal renderings -/

theorem isDigitChar_digitChar (k : Nat) (hk : k < 10) :
    isDigitChar (digitChar k) = true := by
  interval_cases k <;> decide

theorem natCharsAux_digits :
    ∀ fuel n c, c ∈ natCharsAux fuel n → isDigitChar c = true := by
  intro fuel
  induction fuel with
  | zero => simp [natCharsAux]
  | succ f ih =>
    intro n c hc
    rw [natCharsAux] at hc
    split at hc
    · rename_i h10
      simp at hc
      subst hc
      exact isDigitChar_digitChar n h10
    · rcases List.mem_append.mp hc with h | h
      · exact ih _ _ h
      · simp at h
        subst h
        exact isDigitChar_digitChar _ (Nat.mod_lt _ (by omega))

theorem dot_not_mem_natChars (n : Nat) : '.' ∉ natChars n := by
  intro h
  have := natCharsAux_digits _ _ _ h
  simp [isDigitChar] at this

theorem dot_not_mem_intChars (n : Int) : '.' ∉ intChars n := by
  unfold intChars
  split
  · intro h
    rcases List.mem_cons.mp h with h | h
    · simp at h
    · exact dot_not_mem_natChars _ h
  · exact dot_not_mem_natChars _

theorem natCharsAux_ne_nil (fuel n : Nat) (h : 1 ≤ fuel) :
    natCharsAux fuel n ≠ [] := by
  cases fuel with
  | zero => omega
  | succ f =>
    rw [natCharsAux]
    split <;> simp

theorem natChars_ne_nil (n : Nat) : natChars n ≠ [] :=
  natCharsAux_ne_nil _ _ (by omega)

/-! ## Lemmas about whitespace, lowering and stripping -/

theorem pyToLower_ws {c : Char} (h : isWsChar c = true) : pyToLower c = c := by
  simp [isWsChar] at h
  rcases h with ((h | h) | h) | h <;> subst h <;> decide

theorem pyToLower_digit {c : Char} (h : isDigitChar c = true) : pyToLower c = c := by
  simp [isDigitChar] at h
  unfold pyToLower
  rw [if_neg (by omega)]

theorem not_ws_of_lower_n {c : Char} (h : pyToLower c = 'n') : isWsChar c = false := by
  cases hw : isWsChar c
  · rfl
  · rw [pyToLower_ws hw] at h
    subst h
    exact absurd hw (by decide)

theorem skipWs_cons_of_ws {c : Char} {cs : List Char} (h : isWsChar c = true) :
    skipWs (c :: cs) = skipWs cs := by
  simp [skipWs, List.dropWhile, h]

theorem skipWs_cons_of_not_ws {c : Char} {cs : List Char} (h : isWsChar c = false) :
    skipWs (c :: cs) = c :: cs := by
  simp [skipWs, List.dropWhile, h]

theorem not_ws_head_skipWs {cs : List Char} {c : Char} {rest : List Char}
    (h : skipWs cs = c :: rest) : isWsChar c = false := by
  induction cs with
  | nil => simp [skipWs] at h
  | cons a t ih =>
    cases ha : isWsChar a
    · rw [skipWs_cons_of_not_ws ha] at h
      cases h
      exact ha
    · rw [skipWs_cons_of_ws ha] at h
      exact ih h

/-- A list splits into its leading whitespace and its whitespace-skipped
remainder. -/
theorem skipWs_decomp (cs : List Char) :
    ∃ l1, cs = l1 ++ skipWs cs ∧ ∀ c ∈ l1, isWsChar c = true := by
  refine ⟨cs.takeWhile isWsChar, ?_, ?_⟩
  · rw [skipWs, List.takeWhile_append_dropWhile]
  · intro c hc
    exact List.mem_takeWhile_imp hc

/-- A list splits into its trailing-whitespace-dropped front and its
trailing whitespace. -/
theorem dropTrailingWs_decomp (l : List Char) :
    ∃ t, l = dropTrailingWs l ++ t ∧ ∀ c ∈ t, isWsChar c = true := by
  refine ⟨(l.reverse.takeWhile isWsChar).reverse, ?_, ?_⟩
  · unfold dropTrailingWs
    have h := List.takeWhile_append_dropWhile (p := isWsChar) (l := l.reverse)
    have h2 := congrArg List.reverse h
    simp only [List.reverse_append, List.reverse_reverse] at h2
    exact h2.symm
  · intro c hc
    rw [List.mem_reverse] at hc
    exact List.mem_takeWhile_imp hc

theorem dropTrailingWs_eq_nil {l : List Char} (h : dropTrailingWs l = []) :
    ∀ c ∈ l, isWsChar c = true := by
  unfold dropTrailingWs at h
  have : l.reverse.dropWhile isWsChar = [] := by
    have := congrArg List.reverse h
    simpa using this
  intro c hc
  exact (List.dropWhile_eq_nil_iff.mp this) c (List.mem_reverse.mpr hc)

/-- Skipping whitespace walks past an all-whitespace prefix. -/
theorem skipWs_append_ws (l1 cs : List Char) (h : ∀ c ∈ l1, isWsChar c = true) :
    skipWs (l1 ++ cs) = skipWs cs := by
  induction l1 with
  | nil => rfl
  | cons a t ih =>
    have ha : isWsChar a = true := h a (by simp)
    rw [List.cons_append, skipWs_cons_of_ws ha]
    exact ih (fun c hc => h c (by simp [hc]))

/-- The whitespace-skipped form of a list is its stripped form plus
trailing whitespace. -/
theorem skipWs_eq_strip_append (cs : List Char) :
    ∃ t, skipWs cs = pyStrip cs ++ t ∧ ∀ c ∈ t, isWsChar c = true := by
  obtain ⟨t, ht, hws⟩ := dropTrailingWs_decomp (skipWs cs)
  exact ⟨t, ht, hws⟩

/-- If the stripped text is empty the whole string is whitespace. -/
theorem skipWs_eq_nil_of_strip_nil {cs : List Char} (h : pyStrip cs = []) :
    skipWs cs = [] := by
  have hall := dropTrailingWs_eq_nil h
  cases hs : skipWs cs with
  | nil => rfl
  | cons c rest =>
    have hcws : isWsChar c = false := not_ws_head_skipWs hs
    have : isWsChar c = true := hall c (by rw [hs]; simp)
    rw [hcws] at this
    cases this

/-- Inversion of `lower(s) == 'nan'`: the string is exactly three
characters lowering to `n`, `a`, `n`. -/
theorem lower_nan_shape {cs : List Char} (h : pyLower cs = "nan".data) :
    ∃ c1 c2 c3, cs = [c1, c2, c3] ∧ pyToLower c1 = 'n' ∧ pyToLower c2 = 'a'
      ∧ pyToLower c3 = 'n' := by
  have h' : pyLower cs = ['n', 'a', 'n'] := h
  cases cs with
  | nil => simp [pyLower] at h'
  | cons c1 t1 =>
    cases t1 with
    | nil => simp [pyLower] at h'
    | cons c2 t2 =>
      cases t2 with
      | nil => simp [pyLower] at h'
      | cons c3 t3 =>
        cases t3 with
        | nil =>
          simp [pyLower] at h'
          exact ⟨c1, c2, c3, rfl, h'.1, h'.2.1, h'.2.2⟩
        | cons c4 t4 => simp [pyLower] at h'

/-- A string whose whole text lowers to `nan` has no surrounding
whitespace, so stripping is the identity on it. -/
theorem strip_eq_self_of_lower_nan {cs : List Char} (h : pyLower cs = "nan".data) :
    pyStrip cs = cs := by
  obtain ⟨c1, c2, c3, hcs, h1, h2, h3⟩ := lower_nan_shape h
  subst hcs
  have hw1 : isWsChar c1 = false := not_ws_of_lower_n h1
  have hw3 : isWsChar c3 = false := not_ws_of_lower_n h3
  rw [pyStrip, skipWs_cons_of_not_ws hw1]
  unfold dropTrailingWs
  simp only [List.reverse_cons, List.reverse_nil, List.nil_append]
  rw [show ([c3] ++ [c2] ++ [c1] : List Char) = c3 :: [c2, c1] from rfl]
  rw [List.dropWhile_cons_of_neg (by simp [hw3])]
  rfl

/-! ## The decoder rejects text that lowers to `nan` -/

/-- Decoding fails on any input whose text (after leading whitespace)
starts with two characters lowering to `n`, `a`: no JSON token starts that
way. -/
theorem pValue_none_of_nan_shape {cs : List Char} {c1 c2 : Char} {rest : List Char}
    (hs : skipWs cs = c1 :: c2 :: rest)
    (h1 : pyToLower c1 = 'n') (h2 : pyToLower c2 = 'a') :
    ∀ fuel, pValue fuel cs = none := by
  intro fuel
  cases fuel with
  | zero => rfl
  | succ f =>
    rw [pValue, hs]
    by_cases hc1n : c1 = 'n'
    · have hc2 : c2 ≠ 'u' := by
        intro h
        rw [h] at h2
        exact absurd h2 (by decide)
      simp [hc1n, expectChars, hc2]
    · have ht : c1 ≠ 't' := by
        intro h; rw [h] at h1; exact absurd h1 (by decide)
      have hf : c1 ≠ 'f' := by
        intro h; rw [h] at h1; exact absurd h1 (by decide)
      have hq : c1 ≠ '"' := by
        intro h; rw [h] at h1; exact absurd h1 (by decide)
      have hm : c1 ≠ '-' := by
        intro h; rw [h] at h1; exact absurd h1 (by decide)
      have hlb : c1 ≠ '[' := by
        intro h; rw [h] at h1; exact absurd h1 (by decide)
      have hob : c1 ≠ '\x7b' := by
        intro h; rw [h] at h1; exact absurd h1 (by decide)
      have hd : isDigitChar c1 = false := by
        cases hdd : isDigitChar c1
        · rfl
        · rw [pyToLower_digit hdd] at h1
          exact absurd h1 hc1n
      simp [hc1n, ht, hf, hq, hm, hd, hlb, hob]

theorem loadsL_none_of_nan_shape {cs : List Char} {c1 c2 : Char} {rest : List Char}
    (hs : skipWs cs = c1 :: c2 :: rest)
    (h1 : pyToLower c1 = 'n') (h2 : pyToLower c2 = 'a') :
    loadsL cs = none := by
  unfold loadsL
  rw [pValue_none_of_nan_shape hs h1 h2]

/-! ## The extractor coincides with its spec description -/

/-- The dict-level field reads of the code and of the spec agree: the
code's extra truthiness tests on empty dicts only skip reads that would
have produced absent fields anyway. -/
theorem extractDict_eq_spec (d : List (String × JVal)) :
    extractDict d = extractSpecDict d := by
  unfold extractDict extractSpecDict
  cases hx : pyDictGet d "extraction" with
  | none => simp [hx]
  | some v =>
    cases v with
    | obj eb =>
      cases eb with
      | nil => simp [hx, pyDictGet, getAsPy]
      | cons p ps =>
        simp only [hx, List.isEmpty_cons, Bool.false_eq_true, if_false]
        cases hy : pyDictGet (p :: ps) "extracted_data" with
        | none => simp [hy]
        | some w =>
          cases w with
          | obj ed =>
            cases ed with
            | nil => simp [hy, getAsPy, pyDictGet]
            | cons q qs => simp [hy]
          | null => simp [hy]
          | bool b => simp [hy]
          | num n => simp [hy]
          | str s => simp [hy]
          | arr xs => simp [hy]
    | null => simp [hx]
    | bool b => simp [hx]
    | num n => simp [hx]
    | str s => simp [hx]
    | arr xs => simp [hx]

/-- The extractor implements the spec's algorithm §4.3 exactly. -/
theorem parse_eq_extractSpec (j : PyIn) :
    parse_extraction_data j = extractSpec j := by
  cases j with
  | pstr s =>
    by_cases hemp : (pyStrip s.data).isEmpty
    · simp [parse_extraction_data, extractSpec, specResolved, hemp]
    · by_cases hw : pyLower s.data = "nan".data
      · have hstrip := strip_eq_self_of_lower_nan hw
        simp [parse_extraction_data, extractSpec, specResolved, hemp, hw, hstrip]
      · by_cases ht : pyLower (pyStrip s.data) = "nan".data
        · obtain ⟨c1, c2, c3, hshape, h1, h2, h3⟩ := lower_nan_shape ht
          obtain ⟨t, hsk, _⟩ := skipWs_eq_strip_append s.data
          rw [hshape] at hsk
          have hsk' : skipWs s.data = c1 :: c2 :: (c3 :: t) := by
            rw [hsk]; rfl
          have hnone : loadsL s.data = none :=
            loadsL_none_of_nan_shape hsk' h1 h2
          simp [parse_extraction_data, extractSpec, specResolved, hemp, hw, ht, hnone]
        · simp only [parse_extraction_data, extractSpec, specResolved]
          rw [if_neg (by simp [hemp, hw]), if_neg (by simp [hemp, ht])]
          cases hl : loadsL s.data with
          | none => simp
          | some v => cases v <;> simp [extractDict_eq_spec]
  | pdict d => exact extractDict_eq_spec d
  | pnone => rfl
  | pnan => rfl
  | pint n => rfl
  | pfloat m => rfl
  | pbool b => rfl
  | plist xs => rfl

/-! ## Round trip: the decoder undoes the serialiser

The backbone of the canonicalisation claim: `loadsL (dumpsL v) = some v`.
-/

/-- No digit at the head of the trailing input (numerals are the only
serialised token whose parse could leak into what follows). -/
def noDigitHead : List Char → Prop
  | [] => True
  | c :: _ => isDigitChar c = false

theorem stringMk_data (s : String) : String.mk s.data = s := by
  cases s
  rfl

theorem natCharsAux_congr :
    ∀ f g n, n < f → n < g → natCharsAux f n = natCharsAux g n := by
  intro f
  induction f with
  | zero => omega
  | succ f' ih =>
    intro g n hf hg
    cases g with
    | zero => omega
    | succ g' =>
      rw [natCharsAux, natCharsAux]
      split
      · rfl
      · rename_i h10
        have hlt : n / 10 < n := Nat.div_lt_self (by omega) (by omega)
        rw [ih g' (n / 10) (by omega) (by omega)]

/-- The recursion equation of `natChars` with the step budget hidden. -/
theorem natChars_eq (n : Nat) :
    natChars n =
      if n < 10 then [digitChar n]
      else natChars (n / 10) ++ [digitChar (n % 10)] := by
  unfold natChars
  rw [natCharsAux]
  split
  · rfl
  · rename_i h10
    have hlt : n / 10 < n := Nat.div_lt_self (by omega) (by omega)
    rw [natCharsAux_congr n (n / 10 + 1) (n / 10) (by omega) (by omega)]

theorem digitVal_digitChar {k : Nat} (hk : k < 10) :
    digitVal (digitChar k) = k := by
  interval_cases k <;> decide

theorem digits_step_foldl (acc : Nat) (ds : List Char) :
    ∀ rest, (∀ c ∈ ds, isDigitChar c = true) → noDigitHead rest →
      pDigits acc (ds ++ rest)
        = (ds.foldl (fun a c => a * 10 + digitVal c) acc, rest) := by
  induction ds generalizing acc with
  | nil =>
    intro rest _ hrest
    cases rest with
    | nil => rfl
    | cons c cs =>
      have hc : isDigitChar c = false := hrest
      simp [pDigits, hc]
  | cons d ds' ih =>
    intro rest hds hrest
    have hd : isDigitChar d = true := hds d (by simp)
    rw [List.cons_append, pDigits]
    simp only [hd, if_true]
    exact ih _ _ (fun c hc => hds c (by simp [hc])) hrest

theorem natChars_foldl (n : Nat) :
    ∀ acc, (natChars n).foldl (fun a c => a * 10 + digitVal c) acc
      = acc * 10 ^ (natChars n).length + n := by
  induction n using Nat.strong_induction_on with
  | _ n ih =>
    intro acc
    rw [natChars_eq]
    split
    · rename_i h10
      simp [List.foldl, digitVal_digitChar h10]
    · rename_i h10
      have hlt : n / 10 < n := Nat.div_lt_self (by omega) (by omega)
      rw [List.foldl_append, ih _ hlt acc]
      simp only [List.foldl, List.length_append, List.length_singleton]
      rw [digitVal_digitChar (Nat.mod_lt _ (by omega))]
      have hdm : n / 10 * 10 + n % 10 = n := by omega
      rw [pow_succ]
      ring_nf
      omega

theorem natChars_head_ne_zero :
    ∀ n, 0 < n → ∀ d ds, natChars n = d :: ds → d ≠ '0' := by
  intro n
  induction n using Nat.strong_induction_on with
  | _ n ih =>
    intro hpos d ds hnc
    rw [natChars_eq] at hnc
    split at hnc
    · rename_i h10
      injection hnc with h1 h2
      subst h1
      interval_cases n <;> decide
    · rename_i h10
      cases hh : natChars (n / 10) with
      | nil => exact absurd hh (natChars_ne_nil _)
      | cons d' ds' =>
        rw [hh, List.cons_append] at hnc
        injection hnc with h1 h2
        rw [← h1]
        exact ih (n / 10) (Nat.div_lt_self (by omega) (by omega))
          (by omega) d' ds' hh

theorem natChars_all_digits (n : Nat) :
    ∀ c ∈ natChars n, isDigitChar c = true := by
  intro c hc
  exact natCharsAux_digits _ _ _ hc

/-- Reading back a rendered natural numeral. -/
theorem pNat_natChars (n : Nat) (rest : List Char) (hrest : noDigitHead rest) :
    pNat (natChars n ++ rest) = some (n, rest) := by
  by_cases h0 : n = 0
  · subst h0
    simp [show natChars 0 = ['0'] from rfl, pNat]
  · cases hh : natChars n with
    | nil => exact absurd hh (natChars_ne_nil _)
    | cons d ds =>
      have hd : isDigitChar d = true :=
        natChars_all_digits n d (by rw [hh]; simp)
      have hdz : d ≠ '0' := natChars_head_ne_zero n (by omega) d ds hh
      rw [List.cons_append, pNat]
      simp only [hdz, if_false, hd, if_true]
      rw [digits_step_foldl (digitVal d) ds rest
        (fun c hc => natChars_all_digits n c (by rw [hh]; simp [hc])) hrest]
      have hfold := natChars_foldl n 0
      rw [hh] at hfold
      simp only [List.foldl] at hfold
      rw [show (0 : Nat) * 10 + digitVal d = digitVal d from by omega] at hfold
      rw [hfold, show (0 : Nat) * 10 ^ (d :: ds).length + n = n from by omega]

/-- Reading back an escaped string body up to its closing quote. -/
theorem pStr_escChars (s : List Char) :
    ∀ rest, pStr (escChars s ++ '"' :: rest) = some (s, rest) := by
  induction s with
  | nil =>
    intro rest
    rw [show escChars [] ++ '"' :: rest = '"' :: rest from rfl, pStr.eq_def]
    simp
  | cons c cs ih =>
    intro rest
    by_cases hq : c = '"'
    · subst hq
      simp [escChars, pStr, ih]
    · by_cases hb : c = '\\'
      · subst hb
        simp [escChars, pStr, ih]
      · rw [show escChars (c :: cs) ++ '"' :: rest
            = c :: (escChars cs ++ '"' :: rest) from by simp [escChars, hq, hb]]
        rw [pStr.eq_def]
        simp [hq, hb, ih rest]

/-- Characters with special roles in the grammar are not digits. -/
theorem digit_guards {c : Char} (h : isDigitChar c = true) :
    c ≠ 'n' ∧ c ≠ 't' ∧ c ≠ 'f' ∧ c ≠ '"' ∧ c ≠ '-' ∧ c ≠ '[' ∧ c ≠ '\x7b'
      ∧ c ≠ ']' ∧ c ≠ '\x7d' ∧ c ≠ ',' ∧ c ≠ ':' ∧ isWsChar c = false := by
  refine ⟨?_, ?_, ?_, ?_, ?_, ?_, ?_, ?_, ?_, ?_, ?_, ?_⟩
  all_goals first
    | (rintro rfl; revert h; decide)
    | (cases hw : isWsChar c
       · rfl
       · simp [isWsChar] at hw
         rcases hw with ((hw | hw) | hw) | hw <;> subst hw <;> revert h <;> decide)

/-- The serialisation of a value starts with a non-blank character that is
not a closing delimiter or separator. -/
theorem dumpsL_head (v : JVal) :
    ∃ c cs, dumpsL v = c :: cs ∧ isWsChar c = false ∧ c ≠ ']' ∧ c ≠ '\x7d'
      ∧ c ≠ ',' ∧ c ≠ ':' := by
  cases v with
  | null => exact ⟨'n', _, rfl, by decide, by decide, by decide, by decide, by decide⟩
  | bool b =>
    cases b with
    | true => exact ⟨'t', _, rfl, by decide, by decide, by decide, by decide, by decide⟩
    | false => exact ⟨'f', _, rfl, by decide, by decide, by decide, by decide, by decide⟩
  | str s => exact ⟨'"', _, rfl, by decide, by decide, by decide, by decide, by decide⟩
  | arr xs => exact ⟨'[', _, rfl, by decide, by decide, by decide, by decide, by decide⟩
  | obj kvs => exact ⟨'\x7b', _, rfl, by decide, by decide, by decide, by decide, by decide⟩
  | num n =>
    show ∃ c cs, intChars n = c :: cs ∧ _
    unfold intChars
    split
    · exact ⟨'-', _, rfl, by decide, by decide, by decide, by decide, by decide⟩
    · cases hh : natChars n.toNat with
      | nil => exact absurd hh (natChars_ne_nil _)
      | cons d ds =>
        have hd : isDigitChar d = true :=
          natChars_all_digits _ d (by rw [hh]; simp)
        obtain ⟨_, _, _, _, _, _, _, g8, g9, g10, g11, g12⟩ := digit_guards hd
        exact ⟨d, ds, rfl, g12, g8, g9, g10, g11⟩

/-- A leading blank is transparent to the value reader. -/
theorem pValue_cons_ws {c : Char} (hc : isWsChar c = true) :
    ∀ fuel cs, pValue fuel (c :: cs) = pValue fuel cs := by
  intro fuel cs
  cases fuel with
  | zero => rfl
  | succ f =>
    rw [pValue, pValue, skipWs_cons_of_ws hc]

/-- A leading blank is transparent to the element reader. -/
theorem pItems_cons_ws {c : Char} (hc : isWsChar c = true) :
    ∀ fuel cs, pItems fuel (c :: cs) = pItems fuel cs := by
  intro fuel cs
  cases fuel with
  | zero => rfl
  | succ f =>
    rw [pItems, pItems, pValue_cons_ws hc]

/-- A leading blank is transparent to the member reader. -/
theorem pPairs_cons_ws {c : Char} (hc : isWsChar c = true) :
    ∀ fuel cs, pPairs fuel (c :: cs) = pPairs fuel cs := by
  intro fuel cs
  cases fuel with
  | zero => rfl
  | succ f =>
    rw [pPairs, pPairs, skipWs_cons_of_ws hc]

theorem noDigitHead_cons {c : Char} {cs : List Char}
    (h : isDigitChar c = false) : noDigitHead (c :: cs) := h

/-- The decoder undoes the serialiser: simultaneously for values, array
elements and object members, by induction on the step budget, which always
exceeds the serialised length. -/
theorem rt_main : ∀ fuel,
    (∀ v rest, (dumpsL v).length < fuel → noDigitHead rest →
      pValue fuel (dumpsL v ++ rest) = some (v, rest)) ∧
    (∀ xs rest, xs ≠ [] → (dumpsArr xs).length + 1 < fuel →
      pItems fuel (dumpsArr xs ++ ']' :: rest) = some (xs, rest)) ∧
    (∀ ps rest, ps ≠ [] → (dumpsObj ps).length + 1 < fuel →
      pPairs fuel (dumpsObj ps ++ '\x7d' :: rest) = some (ps, rest)) := by
  intro fuel
  induction fuel with
  | zero =>
    exact ⟨fun v rest h _ => absurd h (by omega),
      fun xs rest _ h => absurd h (by omega),
      fun ps rest _ h => absurd h (by omega)⟩
  | succ f ih =>
    obtain ⟨ihv, ihi, ihp⟩ := ih
    refine ⟨?_, ?_, ?_⟩
    · intro v rest hlen hrest
      cases v with
      | null =>
        rw [show dumpsL JVal.null ++ rest = 'n' :: 'u' :: 'l' :: 'l' :: rest from rfl,
          pValue, skipWs_cons_of_not_ws (by decide)]
        simp [expectChars]
      | bool b =>
        cases b with
        | true =>
          rw [show dumpsL (JVal.bool true) ++ rest
              = 't' :: 'r' :: 'u' :: 'e' :: rest from rfl,
            pValue, skipWs_cons_of_not_ws (by decide)]
          simp [expectChars]
        | false =>
          rw [show dumpsL (JVal.bool false) ++ rest
              = 'f' :: 'a' :: 'l' :: 's' :: 'e' :: rest from rfl,
            pValue, skipWs_cons_of_not_ws (by decide)]
          simp [expectChars]
      | str s =>
        rw [show dumpsL (JVal.str s) ++ rest
            = '"' :: (escChars s.data ++ '"' :: rest) from by
          rw [show dumpsL (JVal.str s) = '"' :: (escChars s.data ++ ['"']) from rfl]
          simp]
        rw [pValue, skipWs_cons_of_not_ws (by decide)]
        simp [pStr_escChars, stringMk_data]
      | num n =>
        rw [show dumpsL (JVal.num n) = intChars n from rfl] at hlen ⊢
        unfold intChars at hlen ⊢
        split at hlen
        · rename_i hneg
          rw [if_pos hneg, List.cons_append, pValue,
            skipWs_cons_of_not_ws (by decide)]
          simp [pNat_natChars n.natAbs rest hrest]
          rw [Int.abs_eq_natAbs]
          omega
        · rename_i hpos
          rw [if_neg hpos]
          cases hh : natChars n.toNat with
          | nil => exact absurd hh (natChars_ne_nil _)
          | cons d ds =>
            have hd : isDigitChar d = true :=
              natChars_all_digits _ d (by rw [hh]; simp)
            obtain ⟨g1, g2, g3, g4, g5, g6, g7, _, _, _, _, g12⟩ := digit_guards hd
            have hp := pNat_natChars n.toNat rest hrest
            rw [hh, List.cons_append] at hp
            have htn : ((n.toNat : Int)) = n := Int.toNat_of_nonneg (by omega)
            rw [List.cons_append, pValue, skipWs_cons_of_not_ws g12]
            simp [g1, g2, g3, g4, g5, g6, g7, hd, hp, htn]
      | arr xs =>
        cases xs with
        | nil =>
          rw [show dumpsL (JVal.arr []) ++ rest = '[' :: ']' :: rest from rfl,
            pValue, skipWs_cons_of_not_ws (by decide)]
          simp [skipWs_cons_of_not_ws (show isWsChar ']' = false from by decide),
            show isDigitChar '[' = false from by decide]
        | cons x xs' =>
          rw [show dumpsL (JVal.arr (x :: xs')) ++ rest
              = '[' :: (dumpsArr (x :: xs') ++ ']' :: rest) from by
            rw [show dumpsL (JVal.arr (x :: xs'))
                = '[' :: (dumpsArr (x :: xs') ++ [']']) from rfl]
            simp]
          rw [pValue, skipWs_cons_of_not_ws (by decide)]
          obtain ⟨c0, cs0, hx0, hw0, hrb0, _, _, _⟩ := dumpsL_head x
          have hlen' : (dumpsArr (x :: xs')).length + 1 < f := by
            have h2 : (dumpsL (JVal.arr (x :: xs'))).length
                = (dumpsArr (x :: xs')).length + 2 := by
              rw [show dumpsL (JVal.arr (x :: xs'))
                  = '[' :: (dumpsArr (x :: xs') ++ [']']) from rfl]
              simp
            omega
          have hitems := ihi (x :: xs') rest (by simp) hlen'
          obtain ⟨tail, htail⟩ :
              ∃ tail, dumpsArr (x :: xs') ++ ']' :: rest = c0 :: tail := by
            cases xs' with
            | nil =>
              refine ⟨cs0 ++ ']' :: rest, ?_⟩
              rw [show dumpsArr [x] = dumpsL x from rfl, hx0]
              simp
            | cons y ys =>
              refine ⟨cs0 ++ ',' :: ' ' :: dumpsArr (y :: ys) ++ ']' :: rest, ?_⟩
              rw [show dumpsArr (x :: y :: ys)
                  = dumpsL x ++ ',' :: ' ' :: dumpsArr (y :: ys) from rfl, hx0]
              simp
          rw [htail] at hitems ⊢
          simp [skipWs_cons_of_not_ws hw0, hrb0, hitems,
            show isDigitChar '[' = false from by decide]
      | obj kvs =>
        cases kvs with
        | nil =>
          rw [show dumpsL (JVal.obj []) ++ rest = '\x7b' :: '\x7d' :: rest from rfl,
            pValue, skipWs_cons_of_not_ws (by decide)]
          simp [skipWs_cons_of_not_ws (show isWsChar '\x7d' = false from by decide),
            show isDigitChar '\x7b' = false from by decide]
        | cons p ps' =>
          rw [show dumpsL (JVal.obj (p :: ps')) ++ rest
              = '\x7b' :: (dumpsObj (p :: ps') ++ '\x7d' :: rest) from by
            rw [show dumpsL (JVal.obj (p :: ps'))
                = '\x7b' :: (dumpsObj (p :: ps') ++ ['\x7d']) from rfl]
            simp]
          rw [pValue, skipWs_cons_of_not_ws (by decide)]
          have hlen' : (dumpsObj (p :: ps')).length + 1 < f := by
            have h2 : (dumpsL (JVal.obj (p :: ps'))).length
                = (dumpsObj (p :: ps')).length + 2 := by
              rw [show dumpsL (JVal.obj (p :: ps'))
                  = '\x7b' :: (dumpsObj (p :: ps') ++ ['\x7d']) from rfl]
              simp
            omega
          have hpairs := ihp (p :: ps') rest (by simp) hlen'
          obtain ⟨tail, htail⟩ :
              ∃ tail, dumpsObj (p :: ps') ++ '\x7d' :: rest = '"' :: tail := by
            obtain ⟨k, v⟩ := p
            cases ps' with
            | nil =>
              refine ⟨escChars k.data ++ '"' :: ':' :: ' ' :: dumpsL v ++ '\x7d' :: rest, ?_⟩
              rw [show dumpsObj [(k, v)]
                  = '"' :: (escChars k.data ++ '"' :: ':' :: ' ' :: dumpsL v) from rfl]
              simp
            | cons q qs =>
              refine ⟨(escChars k.data ++ '"' :: ':' :: ' ' :: dumpsL v)
                ++ ',' :: ' ' :: dumpsObj (q :: qs) ++ '\x7d' :: rest, ?_⟩
              rw [show dumpsObj ((k, v) :: q :: qs)
                  = ('"' :: (escChars k.data ++ '"' :: ':' :: ' ' :: dumpsL v))
                    ++ ',' :: ' ' :: dumpsObj (q :: qs) from rfl]
              simp
          rw [htail] at hpairs ⊢
          simp [skipWs_cons_of_not_ws (show isWsChar '"' = false from by decide), hpairs,
            show isDigitChar '\x7b' = false from by decide]
    · intro xs rest hne hlen
      cases xs with
      | nil => exact absurd rfl hne
      | cons x xs' =>
        rw [pItems]
        cases xs' with
        | nil =>
          have hlenx : (dumpsL x).length < f := by
            have : dumpsArr [x] = dumpsL x := rfl
            rw [this] at hlen
            omega
          have hv := ihv x (']' :: rest) hlenx (noDigitHead_cons (by decide))
          rw [show dumpsArr [x] ++ ']' :: rest = dumpsL x ++ ']' :: rest from rfl, hv]
          simp [skipWs_cons_of_not_ws (show isWsChar ']' = false from by decide)]
        | cons y ys =>
          obtain ⟨c0, cs0, hx0, _, _, _, _, _⟩ := dumpsL_head x
          have harrlen : (dumpsArr (x :: y :: ys)).length
              = (dumpsL x).length + 2 + (dumpsArr (y :: ys)).length := by
            rw [show dumpsArr (x :: y :: ys)
                = dumpsL x ++ ',' :: ' ' :: dumpsArr (y :: ys) from rfl]
            simp
            omega
          have hxpos : 1 ≤ (dumpsL x).length := by rw [hx0]; simp
          have hlenx : (dumpsL x).length < f := by omega
          have hleny : (dumpsArr (y :: ys)).length + 1 < f := by omega
          have hv := ihv x (',' :: ' ' :: (dumpsArr (y :: ys) ++ ']' :: rest))
            hlenx (noDigitHead_cons (by decide))
          rw [show dumpsArr (x :: y :: ys) ++ ']' :: rest
              = dumpsL x ++ (',' :: ' ' :: (dumpsArr (y :: ys) ++ ']' :: rest)) from by
            rw [show dumpsArr (x :: y :: ys)
                = dumpsL x ++ ',' :: ' ' :: dumpsArr (y :: ys) from rfl]
            simp]
          rw [hv]
          have hi := ihi (y :: ys) rest (by simp) hleny
          simp [skipWs_cons_of_not_ws (show isWsChar ',' = false from by decide),
            pItems_cons_ws (show isWsChar ' ' = true from by decide), hi]
    · intro ps rest hne hlen
      cases ps with
      | nil => exact absurd rfl hne
      | cons p ps' =>
        obtain ⟨k, v⟩ := p
        rw [pPairs]
        obtain ⟨c0, cs0, hv0, _, _, _, _, _⟩ := dumpsL_head v
        have hvpos : 1 ≤ (dumpsL v).length := by rw [hv0]; simp
        cases ps' with
        | nil =>
          have hobjlen : (dumpsObj [(k, v)]).length
              = (escChars k.data).length + 4 + (dumpsL v).length := by
            rw [show dumpsObj [(k, v)]
                = '"' :: (escChars k.data ++ '"' :: ':' :: ' ' :: dumpsL v) from rfl]
            simp
            omega
          have hlenv : (dumpsL v).length < f := by omega
          have hval := ihv v ('\x7d' :: rest) hlenv (noDigitHead_cons (by decide))
          rw [show dumpsObj [(k, v)] ++ '\x7d' :: rest
              = '"' :: (escChars k.data
                ++ '"' :: (':' :: ' ' :: (dumpsL v ++ '\x7d' :: rest))) from by
            rw [show dumpsObj [(k, v)]
                = '"' :: (escChars k.data ++ '"' :: ':' :: ' ' :: dumpsL v) from rfl]
            simp]
          rw [skipWs_cons_of_not_ws (show isWsChar '"' = false from by decide)]
          simp [pStr_escChars,
            skipWs_cons_of_not_ws (show isWsChar ':' = false from by decide),
            skipWs_cons_of_not_ws (show isWsChar '\x7d' = false from by decide),
            pValue_cons_ws (show isWsChar ' ' = true from by decide),
            hval, stringMk_data]
        | cons q qs =>
          have hobjlen : (dumpsObj ((k, v) :: q :: qs)).length
              = (escChars k.data).length + 6 + (dumpsL v).length
                + (dumpsObj (q :: qs)).length := by
            rw [show dumpsObj ((k, v) :: q :: qs)
                = ('"' :: (escChars k.data ++ '"' :: ':' :: ' ' :: dumpsL v))
                  ++ ',' :: ' ' :: dumpsObj (q :: qs) from rfl]
            simp
            omega
          have hlenv : (dumpsL v).length < f := by omega
          have hlenq : (dumpsObj (q :: qs)).length + 1 < f := by omega
          have hval := ihv v
            (',' :: ' ' :: (dumpsObj (q :: qs) ++ '\x7d' :: rest)) hlenv
            (noDigitHead_cons (by decide))
          have hps := ihp (q :: qs) rest (by simp) hlenq
          rw [show dumpsObj ((k, v) :: q :: qs) ++ '\x7d' :: rest
              = '"' :: (escChars k.data ++ '"' :: (':' :: ' '
                :: (dumpsL v ++ ',' :: ' ' :: (dumpsObj (q :: qs)
                  ++ '\x7d' :: rest)))) from by
            rw [show dumpsObj ((k, v) :: q :: qs)
                = ('"' :: (escChars k.data ++ '"' :: ':' :: ' ' :: dumpsL v))
                  ++ ',' :: ' ' :: dumpsObj (q :: qs) from rfl]
            simp]
          rw [skipWs_cons_of_not_ws (show isWsChar '"' = false from by decide)]
          simp [pStr_escChars,
            skipWs_cons_of_not_ws (show isWsChar ':' = false from by decide),
            skipWs_cons_of_not_ws (show isWsChar ',' = false from by decide),
            pValue_cons_ws (show isWsChar ' ' = true from by decide),
            pPairs_cons_ws (show isWsChar ' ' = true from by decide),
            hval, hps, stringMk_data]

/-- The canonical re-serialisation decodes back to the value it came
from. -/
theorem loadsL_dumpsL (v : JVal) : loadsL (dumpsL v) = some v := by
  unfold loadsL
  have h := (rt_main ((dumpsL v).length + 1)).1 v [] (by omega) trivial
  rw [List.append_nil] at h
  rw [h]
  rfl

theorem loadsL_none_of_skipWs_nil {cs : List Char} (h : skipWs cs = []) :
    loadsL cs = none := by
  unfold loadsL
  rw [pValue, h]

theorem strip_ne_nil_of_loads_some {cs : List Char} {v : JVal}
    (h : loadsL cs = some v) : (pyStrip cs).isEmpty = false := by
  cases hl : pyStrip cs with
  | cons a b => rfl
  | nil =>
    exfalso
    rw [loadsL_none_of_skipWs_nil (skipWs_eq_nil_of_strip_nil hl)] at h
    cases h

theorem lower_ne_nan_of_loads_some {cs : List Char} {v : JVal}
    (h : loadsL cs = some v) : pyLower cs ≠ "nan".data := by
  intro hn
  obtain ⟨c1, c2, c3, hsh, h1, h2, h3⟩ := lower_nan_shape hn
  subst hsh
  have hw1 : isWsChar c1 = false := not_ws_of_lower_n h1
  have hsk : skipWs [c1, c2, c3] = c1 :: c2 :: [c3] := skipWs_cons_of_not_ws hw1
  rw [loadsL_none_of_nan_shape hsk h1 h2] at h
  cases h

theorem strip_dumpsL_not_nil (v : JVal) : (pyStrip (dumpsL v)).isEmpty = false := by
  obtain ⟨c, cs, hv, hw, _, _, _, _⟩ := dumpsL_head v
  cases hl : pyStrip (dumpsL v) with
  | cons a b => rfl
  | nil =>
    exfalso
    have hall := dropTrailingWs_eq_nil (l := skipWs (dumpsL v)) hl
    have hsk : skipWs (dumpsL v) = c :: cs := by
      rw [hv]
      exact skipWs_cons_of_not_ws hw
    have : isWsChar c = true := hall c (by rw [hsk]; simp)
    rw [hw] at this
    cases this

theorem lower_dumpsL_ne_nan (v : JVal) : pyLower (dumpsL v) ≠ "nan".data := by
  intro h
  obtain ⟨c1, c2, c3, hsh, h1, h2, h3⟩ := lower_nan_shape h
  cases v with
  | null =>
    rw [show dumpsL JVal.null = ['n', 'u', 'l', 'l'] from rfl] at hsh
    simp at hsh
  | bool b =>
    cases b with
    | true =>
      rw [show dumpsL (JVal.bool true) = ['t', 'r', 'u', 'e'] from rfl] at hsh
      simp at hsh
    | false =>
      rw [show dumpsL (JVal.bool false) = ['f', 'a', 'l', 's', 'e'] from rfl] at hsh
      simp at hsh
  | str s =>
    rw [show dumpsL (JVal.str s) = '"' :: (escChars s.data ++ ['"']) from rfl] at hsh
    injection hsh with hc1 _
    rw [← hc1] at h1
    exact absurd h1 (by decide)
  | arr xs =>
    rw [show dumpsL (JVal.arr xs) = '[' :: (dumpsArr xs ++ [']']) from rfl] at hsh
    injection hsh with hc1 _
    rw [← hc1] at h1
    exact absurd h1 (by decide)
  | obj kvs =>
    rw [show dumpsL (JVal.obj kvs) = '\x7b' :: (dumpsObj kvs ++ ['\x7d']) from rfl] at hsh
    injection hsh with hc1 _
    rw [← hc1] at h1
    exact absurd h1 (by decide)
  | num n =>
    rw [show dumpsL (JVal.num n) = intChars n from rfl] at hsh
    unfold intChars at hsh
    split at hsh
    · injection hsh with hc1 _
      rw [← hc1] at h1
      exact absurd h1 (by decide)
    · cases hh : natChars n.toNat with
      | nil => exact absurd hh (natChars_ne_nil _)
      | cons d ds =>
        rw [hh] at hsh
        injection hsh with hc1 _
        have hd : isDigitChar d = true :=
          natChars_all_digits _ d (by rw [hh]; simp)
        rw [hc1] at hd
        rw [pyToLower_digit hd] at h1
        rw [h1] at hd
        exact absurd hd (by decide)

/-! ## The claims -/

/-- C1: a batch run over a sequence of input rows produces exactly one
merged record per input row — the collection loop visits every completed
future, so the result multiset is the image of the input rows, its length
equals the input length, and a transport error or non-2xx status on one
row never prevents any other row from contributing its record (no early
exit). -/
theorem claim_C1_batch_completes (net : String → HttpResult) (pre post : String)
    (rows order : List Row) (h : order.Perm rows) :
    (runBatch net pre post order).length = rows.length
    ∧ (runBatch net pre post order).Perm (rows.map (processRow net pre post))
    ∧ ∀ row ∈ rows, processRow net pre post row ∈ runBatch net pre post order := by
  refine ⟨?_, h.map _, ?_⟩
  · simp [runBatch, h.length_eq]
  · intro row hrow
    exact List.mem_map_of_mem _ (h.mem_iff.mpr hrow)

/-- Witness for C1: the spec's end-to-end example — id 1 answers 200 with
a full payload, id 2 suffers a connection refusal; completion order is
reversed, and both rows still yield exactly one record each. -/
theorem claim_C1_batch_completes_witness :
    (runBatch exampleNet "https://api.test/item/" "" exampleOrder).length
      = exampleRows.length
    ∧ (runBatch exampleNet "https://api.test/item/" "" exampleOrder).Perm
        (exampleRows.map (processRow exampleNet "https://api.test/item/" ""))
    ∧ ∀ row ∈ exampleRows,
        processRow exampleNet "https://api.test/item/" "" row
          ∈ runBatch exampleNet "https://api.test/item/" "" exampleOrder :=
  claim_C1_batch_completes exampleNet "https://api.test/item/" ""
    exampleRows exampleOrder
    (by unfold exampleRows exampleOrder; exact List.Perm.swap _ _ _)

/-- C2: a completed fetch outcome satisfies exactly one of: status ≥ 0
with empty error (raw body possibly non-empty), or the `-1` sentinel with
a non-empty error and an empty raw body; moreover status is `-1` exactly
when the error is non-empty, and the pre-dispatch default `0` never
survives into a completed outcome.  The environment hypotheses record
that HTTP status lines carry codes ≥ 100 and that a raised
`RequestException` stringifies to non-empty text. -/
theorem claim_C2_outcome_invariant (net : String → HttpResult)
    (pre rid post : String) (r : FetchResult)
    (hr : r = fetch_data net pre rid post)
    (hexn : ∀ url m, net url = .exn m → m ≠ "")
    (hresp : ∀ url st b, net url = .resp st b → 100 ≤ st) :
    ((0 ≤ r.status_code ∧ r.error = "")
      ∨ (r.status_code = -1 ∧ r.error ≠ "" ∧ r.response_json = ""))
    ∧ ¬((0 ≤ r.status_code ∧ r.error = "")
        ∧ (r.status_code = -1 ∧ r.error ≠ "" ∧ r.response_json = ""))
    ∧ (r.status_code = -1 ↔ r.error ≠ "")
    ∧ r.status_code ≠ 0 := by
  subst hr
  cases hnet : net (pre ++ rid ++ post) with
  | resp st body =>
    have hst := hresp _ _ _ hnet
    simp [fetch_data, hnet]
    omega
  | exn m =>
    have hm := hexn _ _ hnet
    simp [fetch_data, hnet, hm]

/-- Witness for C2: a network that always raises a connection error with
message `boom`. -/
theorem claim_C2_outcome_invariant_witness :
    ((0 ≤ (fetch_data (fun _ => .exn "boom") "p/" "1" "").status_code
        ∧ (fetch_data (fun _ => .exn "boom") "p/" "1" "").error = "")
      ∨ ((fetch_data (fun _ => .exn "boom") "p/" "1" "").status_code = -1
          ∧ (fetch_data (fun _ => .exn "boom") "p/" "1" "").error ≠ ""
          ∧ (fetch_data (fun _ => .exn "boom") "p/" "1" "").response_json = ""))
    ∧ ¬((0 ≤ (fetch_data (fun _ => .exn "boom") "p/" "1" "").status_code
          ∧ (fetch_data (fun _ => .exn "boom") "p/" "1" "").error = "")
        ∧ ((fetch_data (fun _ => .exn "boom") "p/" "1" "").status_code = -1
            ∧ (fetch_data (fun _ => .exn "boom") "p/" "1" "").error ≠ ""
            ∧ (fetch_data (fun _ => .exn "boom") "p/" "1" "").response_json = ""))
    ∧ ((fetch_data (fun _ => .exn "boom") "p/" "1" "").status_code = -1
        ↔ (fetch_data (fun _ => .exn "boom") "p/" "1" "").error ≠ "")
    ∧ (fetch_data (fun _ => .exn "boom") "p/" "1" "").status_code ≠ 0 :=
  claim_C2_outcome_invariant (fun _ => .exn "boom") "p/" "1" "" _ rfl
    (fun _ m h => by injection h with h2; subst h2; decide)
    (fun _ _ _ h => HttpResult.noConfusion h)

set_option maxRecDepth 4000 in
/-- C3: the extractor is total — every input that does not resolve to a
mapping (per the spec's resolution steps: `None`, pandas `NaN`, numbers,
lists, empty or whitespace-only strings, any-case `nan`, non-JSON text,
JSON text decoding to `null` / a number / an array) yields the all-absent
record, and a well-formed nested object populates all four fields; no
input raises. -/
theorem claim_C3_extractor_total :
    (∀ j, specResolved j = none → parse_extraction_data j = emptyParsed)
    ∧ parse_extraction_data .pnone = emptyParsed
    ∧ parse_extraction_data .pnan = emptyParsed
    ∧ parse_extraction_data (.pint 7) = emptyParsed
    ∧ parse_extraction_data (.plist [.num 1]) = emptyParsed
    ∧ parse_extraction_data (.pstr "") = emptyParsed
    ∧ parse_extraction_data (.pstr "   ") = emptyParsed
    ∧ parse_extraction_data (.pstr "nan") = emptyParsed
    ∧ parse_extraction_data (.pstr "NaN") = emptyParsed
    ∧ parse_extraction_data (.pstr "nAn") = emptyParsed
    ∧ parse_extraction_data (.pstr "not json") = emptyParsed
    ∧ parse_extraction_data (.pstr "null") = emptyParsed
    ∧ parse_extraction_data (.pstr "42") = emptyParsed
    ∧ parse_extraction_data (.pstr "[1, 2]") = emptyParsed
    ∧ parse_extraction_data
        (.pstr "\x7b\"mobile_number\": \"555\", \"extraction\": \x7b\"extracted_data\": \x7b\"main_disposition\": \"A\", \"sub_disposition\": \"B\"\x7d\x7d, \"conversation_time\": \"2024-01-01\"\x7d")
      = ⟨some (.str "555"), some (.str "A"), some (.str "B"), some (.str "2024-01-01")⟩ := by
  refine ⟨?_, rfl, rfl, rfl, rfl, rfl, rfl, rfl, rfl, rfl, rfl, rfl, rfl, rfl, rfl⟩
  intro j hj
  rw [parse_eq_extractSpec]
  simp [extractSpec, hj]

/-- Witness for C3: the `None` input does not resolve to a mapping and is
mapped to the all-absent record. -/
theorem claim_C3_extractor_total_witness :
    specResolved PyIn.pnone = none ∧ parse_extraction_data PyIn.pnone = emptyParsed :=
  ⟨rfl, claim_C3_extractor_total.1 PyIn.pnone rfl⟩

/-- C4: the extractor follows the specified algorithm exactly — trim and
`nan` test, decode with all-absent on failure or non-mapping, top-level
reads for the contact identifier and timestamp, nested
`extraction.extracted_data` reads for the two classification fields, each
field independently present or absent (stated as extensional equality with
the spec-worded algorithm `extractSpec`). -/
theorem claim_C4_algorithm (j : PyIn) :
    parse_extraction_data j = extractSpec j :=
  parse_eq_extractSpec j

/-- C5: for every HTTP response, the stored raw body is the canonical JSON
re-serialisation when the body decodes, and the verbatim text when it does
not; the parse step never escapes the fetch unit. -/
theorem claim_C5_body_storage (net : String → HttpResult)
    (pre rid post : String) (st : Nat) (body : String)
    (h : net (pre ++ rid ++ post) = .resp st body) :
    (∃ jv, json_loads body = some jv
        ∧ (fetch_data net pre rid post).response_json = json_dumps jv)
      ∨ (json_loads body = none
        ∧ (fetch_data net pre rid post).response_json = body) := by
  cases hj : json_loads body with
  | some jv =>
    left
    exact ⟨jv, rfl, by simp [fetch_data, h, hj]⟩
  | none =>
    right
    exact ⟨rfl, by simp [fetch_data, h, hj]⟩

/-- Witness for C5: the spec's example — body `not json` with status 200
is stored verbatim and extracts to all-absent. -/
theorem claim_C5_body_storage_witness :
    ((∃ jv, json_loads "not json" = some jv
        ∧ (fetch_data (fun _ => .resp 200 "not json")
            "https://api.test/item/" "1" "").response_json = json_dumps jv)
      ∨ (json_loads "not json" = none
        ∧ (fetch_data (fun _ => .resp 200 "not json")
            "https://api.test/item/" "1" "").response_json = "not json"))
    ∧ (fetch_data (fun _ => .resp 200 "not json")
        "https://api.test/item/" "1" "").response_json = "not json"
    ∧ parse_extraction_data
        (.pstr (fetch_data (fun _ => .resp 200 "not json")
          "https://api.test/item/" "1" "").response_json) = emptyParsed :=
  ⟨claim_C5_body_storage _ "https://api.test/item/" "1" "" 200 "not json" rfl,
    rfl, rfl⟩

/-- C6: with retry count `n` and a server answering a retryable status for
the first `n` attempts and a terminal status on attempt `n`, the
configured retry loop issues exactly `n + 1` attempts and returns the
terminal response; a non-retryable first status returns immediately after
one attempt; and the configured retryable set contains 500, 502 and
504. -/
theorem claim_C6_retry_bound (n : Nat) (resp : Nat → Nat)
    (hr : ∀ j, j < n → resp j ∈ (get_session_with_retries n).status_forcelist)
    (ht : resp n ∉ (get_session_with_retries n).status_forcelist) :
    retryLoop (get_session_with_retries n).status_forcelist resp 0
        (get_session_with_retries n).total
      = .response (resp n) (n + 1)
    ∧ (∀ resp2 : Nat → Nat,
        resp2 0 ∉ (get_session_with_retries n).status_forcelist →
        retryLoop (get_session_with_retries n).status_forcelist resp2 0
            (get_session_with_retries n).total
          = .response (resp2 0) 1)
    ∧ 500 ∈ (get_session_with_retries n).status_forcelist
    ∧ 502 ∈ (get_session_with_retries n).status_forcelist
    ∧ 504 ∈ (get_session_with_retries n).status_forcelist := by
  refine ⟨?_, ?_, by simp [get_session_with_retries],
    by simp [get_session_with_retries], by simp [get_session_with_retries]⟩
  · have h := retryLoop_terminal (get_session_with_retries n).status_forcelist
      resp n 0 (fun j hj => by simpa using hr j hj) (by simpa using ht)
    simpa using h
  · intro resp2 h2
    rw [retryLoop.eq_def]
    simp [h2]

/-- Witness for C6: two retries against a server answering 500, 500, then
404 — three attempts, terminal 404. -/
theorem claim_C6_retry_bound_witness :
    retryLoop (get_session_with_retries 2).status_forcelist
        (fun i => if i < 2 then 500 else 404) 0
        (get_session_with_retries 2).total
      = .response ((fun i : Nat => if i < 2 then 500 else 404) 2) (2 + 1)
    ∧ (∀ resp2 : Nat → Nat,
        resp2 0 ∉ (get_session_with_retries 2).status_forcelist →
        retryLoop (get_session_with_retries 2).status_forcelist resp2 0
            (get_session_with_retries 2).total
          = .response (resp2 0) 1)
    ∧ 500 ∈ (get_session_with_retries 2).status_forcelist
    ∧ 502 ∈ (get_session_with_retries 2).status_forcelist
    ∧ 504 ∈ (get_session_with_retries 2).status_forcelist :=
  claim_C6_retry_bound 2 (fun i => if i < 2 then 500 else 404)
    (by decide) (by decide)

/-- C7: extractor idempotence over canonicalisation — for every
JSON-decodable string, extracting from the canonical re-serialisation of
its decoded value gives the same result as extracting from the string
itself. -/
theorem claim_C7_idempotent (x : String) (v : JVal)
    (h : json_loads x = some v) :
    parse_extraction_data (.pstr (json_dumps v))
      = parse_extraction_data (.pstr x) := by
  have hx : loadsL x.data = some v := h
  have hxe := strip_ne_nil_of_loads_some hx
  have hxn := lower_ne_nan_of_loads_some hx
  have hle := strip_dumpsL_not_nil v
  have hln := lower_dumpsL_ne_nan v
  have hdata : (json_dumps v).data = dumpsL v := rfl
  simp only [parse_extraction_data]
  rw [hdata]
  rw [if_neg (by simp [hle, hln]), if_neg (by simp [hxe, hxn])]
  rw [loadsL_dumpsL, hx]

/-- Witness for C7: a one-field object string. -/
theorem claim_C7_idempotent_witness :
    json_loads "\x7b\"mobile_number\": \"555\"\x7d"
      = some (.obj [("mobile_number", .str "555")])
    ∧ parse_extraction_data
        (.pstr (json_dumps (.obj [("mobile_number", .str "555")])))
      = parse_extraction_data (.pstr "\x7b\"mobile_number\": \"555\"\x7d") :=
  ⟨rfl, claim_C7_idempotent _ _ rfl⟩

/-- C8: the merged record is `InputRow ⊕ RequestOutcome ⊕ ExtractedFields`
with the outcome overriding the input and the extracted fields overriding
both on key collision, and non-colliding input columns passing through
unchanged. -/
theorem claim_C8_merge (net : String → HttpResult) (pre post : String)
    (row : Row) (k : String) :
    (alookup (processRow net pre post row) k
      = match alookup (parsedDict (parse_extraction_data
            (.pstr (fetch_data net pre (rowIdStr row) post).response_json))) k with
        | some v => some v
        | none =>
          match alookup (fetchDict (fetch_data net pre (rowIdStr row) post)) k with
          | some v => some v
          | none => alookup row k)
    ∧ (alookup (fetchDict (fetch_data net pre (rowIdStr row) post)) k = none →
        alookup (parsedDict (parse_extraction_data
          (.pstr (fetch_data net pre (rowIdStr row) post).response_json))) k = none →
        alookup (processRow net pre post row) k = alookup row k) := by
  constructor
  · simp only [processRow]
    rw [alookup_dictMerge, alookup_dictMerge]
  · intro h1 h2
    simp only [processRow]
    rw [alookup_dictMerge, alookup_dictMerge, h1, h2]

/-- Witness for C8: an extra input column with a non-colliding name passes
through unchanged. -/
theorem claim_C8_merge_witness :
    alookup (processRow (fun _ => .exn "boom") "p/" "s"
        [("extra", Cell.s "keep"), ("id", Cell.s "7")]) "extra"
      = alookup [("extra", Cell.s "keep"), ("id", Cell.s "7")] "extra"
    ∧ alookup ([("extra", Cell.s "keep"), ("id", Cell.s "7")] : Row) "extra"
      = some (Cell.s "keep") :=
  ⟨(claim_C8_merge (fun _ => .exn "boom") "p/" "s"
      [("extra", Cell.s "keep"), ("id", Cell.s "7")] "extra").2 rfl rfl, rfl⟩

/-- C9 counterexample: the claim says a numeric id never acquires a
trailing `.0`, but `astype(str)` applies Python `str` element-wise, and a
float64 id cell holding `1.0` (the dtype pandas infers when a numeric id
column contains a missing value) normalises to the string `1.0`, which
ends in `.0` and is used verbatim in the dispatched URL. -/
theorem claim_C9_id_norm_cex :
    astypeStrId ⟨["id"], [[("id", Cell.f 1)]]⟩
      = ⟨["id"], [[("id", Cell.s "1.0")]]⟩
    ∧ (fetch_data (fun _ => .resp 200 "") "https://api.test/item/"
        (pyStrOfCell (Cell.f 1)) "").full_url = "https://api.test/item/1.0"
    ∧ "1.0" = "1" ++ ".0" :=
  ⟨rfl, rfl, rfl⟩

/-- C9 amended: the id column is normalised with `astype(str)`, i.e.
element-wise Python `str`; string cells are kept as they are and
integer-dtype cells render as plain signed decimal digits with no `.0`
(no spurious formatting), but float-dtype whole-number cells do render
with a trailing `.0`. -/
theorem claim_C9_id_norm (n m : Int) (s : String) :
    pyStrOfCell (Cell.s s) = s
    ∧ pyStrOfCell (Cell.i n) = String.mk (intChars n)
    ∧ '.' ∉ intChars n
    ∧ pyStrOfCell (Cell.f m) = String.mk (intChars m ++ ['.', '0']) :=
  ⟨rfl, rfl, dot_not_mem_intChars n, rfl⟩

/-- C10: an upload with a `response_json` column is handled entirely by
viewer mode — the result is the extractor applied to that column, it does
not depend on the network, the URL settings or any batch order (no HTTP
request is made), and the runner-mode id requirement is never consulted,
even when an `id` column is present. -/
theorem claim_C10_viewer_mode (df : Table) (h : "response_json" ∈ df.cols)
    (net net2 : String → HttpResult) (pre pre2 post post2 : String)
    (order order2 : List Row) :
    appRun net df pre post order = appRun net2 df pre2 post2 order2
    ∧ appRun net df pre post order
      = .viewerOut (df.rows.map fun r =>
          parse_extraction_data (cellToPyIn (alookup r "response_json"))) := by
  constructor <;> simp [appRun, h]

/-- Witness for C10: a table carrying both `id` and `response_json`
columns takes viewer mode under two entirely different networks and
configurations. -/
theorem claim_C10_viewer_mode_witness :
    appRun (fun _ => .exn "refused")
        ⟨["id", "response_json"],
          [[("id", Cell.s "1"), ("response_json", Cell.s "null")]]⟩
        "a" "b" []
      = appRun (fun _ => .resp 200 "\x7b\x7d")
        ⟨["id", "response_json"],
          [[("id", Cell.s "1"), ("response_json", Cell.s "null")]]⟩
        "c" "d" [[("id", Cell.s "9")]]
    ∧ appRun (fun _ => .exn "refused")
        ⟨["id", "response_json"],
          [[("id", Cell.s "1"), ("response_json", Cell.s "null")]]⟩
        "a" "b" []
      = .viewerOut [emptyParsed] := by
  have h := claim_C10_viewer_mode
    ⟨["id", "response_json"],
      [[("id", Cell.s "1"), ("response_json", Cell.s "null")]]⟩
    (by decide) (fun _ => .exn "refused") (fun _ => .resp 200 "\x7b\x7d")
    "a" "c" "b" "d" [] [[("id", Cell.s "9")]]
  exact ⟨h.1, by rw [h.2]; rfl⟩

end BatchApp
